import Mathlib

/-!
# Skribbler backend: rooms, guesses, broadcast and word selection

A shallow embedding of `internals/websockets/ws.go` and of the selection loop
of `internals/server/handlers.go`.

* Go pointers (`*Player`, `*Room`, `*websocket.Conn`) are addresses (`Nat`);
  a pointer that may be `nil` is an `Option Nat`.  The objects live in two
  heaps, `World.players` and `World.roomObjs`, so aliasing is visible.
* Go maps with string keys are association lists whose list order is the
  iteration order of a `range` loop.
* The outcome of every `WriteJSON` is supplied by a write oracle, a function
  from the connection written to onto the error returned (`none` is `nil`).
* A goroutine started with `go` is recorded in the result and not run.
-/

namespace Skribbler

/-! ## Values carried by messages -/

/-- Modelled from the spec: the `internals.DrawData` type declaration is not
part of the sources; the spec calls it an arbitrary drawing-stroke structure
that is opaque to the core, so it is a record with one uninterpreted field. -/
structure DrawData where
  stroke : List Int

/-- The dynamic values an `interface{}` holds in this program.  The first six
constructors are what `encoding/json` stores when it decodes into an
`interface{}` (`nil`, `bool`, `float64`, `string`, `[]interface{}`,
`map[string]interface{}`); the others are built only by the program itself. -/
inductive Dyn where
  | null : Dyn
  | bool (b : Bool) : Dyn
  | float64 (bits : Nat) : Dyn
  | string (s : String) : Dyn
  | slice (xs : List Dyn) : Dyn
  | stringMap (m : List (String × Dyn)) : Dyn
  | int (n : Int) : Dyn
  | strStrMap (m : List (String × String)) : Dyn
  | drawData (d : DrawData) : Dyn

/-- Whether a dynamic value can be the `Data` of a message decoded by
`ReadJSON`: exactly the six kinds `encoding/json` produces. -/
def Dyn.fromWire : Dyn → Bool
  | .null => true
  | .bool _ => true
  | .float64 _ => true
  | .string _ => true
  | .slice _ => true
  | .stringMap _ => true
  | .int _ => false
  | .strStrMap _ => false
  | .drawData _ => false

/-- Modelled from the spec: the `internals.Message` type declaration is not
part of the sources; the wire envelope is `{type: string, data: <tag-dependent>}`. -/
structure Message where
  Type_ : String
  Data : Dyn

/-! ## Data model -/

/-- Modelled from the spec: the `internals.Player` type declaration is not
part of the sources.  Fields as used by `ws.go`: `Id`, `Conn` (may be `nil`),
`Username`, `Score` (an integer that only grows) and the back-reference `Room`,
which is set before any handler runs. -/
structure Player where
  Id : String
  Conn : Option Nat
  Username : String
  Score : Int
  Room : Nat

/-- Modelled from the spec: the `internals.Room` type declaration is not part
of the sources.  Fields as used by `ws.go`: `Id`, the map `Players` from
participant id to `*Player` (a value may be `nil`), `Word` and the drawer
`Current` (may be `nil`).  The lock `Mu` carries no data. -/
structure Room where
  Id : String
  Players : List (String × Option Nat)
  Word : String
  Current : Option Nat

instance : Inhabited Player := ⟨⟨"", none, "", 0, 0⟩⟩

instance : Inhabited Room := ⟨⟨"", [], "", none⟩⟩

/-- The program state: both heaps, their allocation counters and the global
registry `rooms` (a `map[string]*Room`). -/
structure World where
  players : Nat → Player
  roomObjs : Nat → Room
  nextPlayer : Nat
  nextRoom : Nat
  rooms : List (String × Nat)

/-- The state at program start: nothing allocated, `rooms` empty. -/
def World.empty : World :=
  ⟨fun _ => default, fun _ => default, 0, 0, []⟩

/-! ## Go maps as association lists -/

/-- The map read `m[k]` with its `ok` flag: `none` when `k` is absent. -/
def mapGet {V : Type} : List (String × V) → String → Option V
  | [], _ => none
  | (k', v) :: rest, k => if k' = k then some v else mapGet rest k

/-- The map operation `delete(m, k)`. -/
def mapDelete {V : Type} (m : List (String × V)) (k : String) : List (String × V) :=
  m.filter (fun e => decide (e.1 ≠ k))

/-- The map write `m[k] = v`: overwrite an existing key in place, otherwise
append a new entry. -/
def mapSet {V : Type} : List (String × V) → String → V → List (String × V)
  | [], k, v => [(k, v)]
  | (k', v') :: rest, k, v =>
    if k' = k then (k, v) :: rest else (k', v') :: mapSet rest k v

/-! ## Writes to a connection -/

/-- The errors `WriteJSON` can return, as far as `broadcastToRoom` tells them
apart: a `*websocket.CloseError` with its code, or any other error. -/
inductive WriteErr where
  | closeError (code : Nat) : WriteErr
  | other : WriteErr
  deriving DecidableEq

/-- Gorilla constant `websocket.CloseGoingAway`. -/
def CloseGoingAway : Nat := 1001

/-- Gorilla constant `websocket.CloseAbnormalClosure`. -/
def CloseAbnormalClosure : Nat := 1006

/-- Gorilla function `websocket.IsCloseError(err, codes...)`: the error is a
close error whose code is one of `codes`. -/
def IsCloseError (err : WriteErr) (codes : List Nat) : Bool :=
  match err with
  | .closeError code => codes.contains code
  | .other => false

/-- A write oracle: the error returned by `WriteJSON` on a connection. -/
abbrev WriteOracle := Nat → Option WriteErr

/-- One successful `WriteJSON`: the participant written to and the message. -/
structure Delivery where
  receiver : Nat
  msg : Message

/-! ## Heap updates -/

/-- The statement `p.Score += n` for the player at address `p`. -/
def addScore (w : World) (p : Nat) (n : Int) : World :=
  let pl := w.players p
  { w with players := Function.update w.players p { pl with Score := pl.Score + n } }

/-- The statement `delete(room.Players, id)` for the room at address `room`. -/
def deletePlayer (w : World) (room : Nat) (id : String) : World :=
  let r := w.roomObjs room
  { w with roomObjs := Function.update w.roomObjs room { r with Players := mapDelete r.Players id } }

/-- The statement `room.Word = word` for the room at address `room`. -/
def setWord (w : World) (room : Nat) (word : String) : World :=
  let r := w.roomObjs room
  { w with roomObjs := Function.update w.roomObjs room { r with Word := word } }

/-! ## `broadcastToRoom` -/

/-- The body of the `for id, player := range players` loop of
`broadcastToRoom`, over the snapshot entries still to visit.  A `nil` player or
connection is skipped; a successful write is logged; a failed write deletes the
entry from the live room only when the error is a close error with code
`CloseGoingAway` or `CloseAbnormalClosure`. -/
def broadcastLoop (wr : WriteOracle) (room : Nat) (msg : Message) :
    List (String × Option Nat) → World → World × List Delivery
  | [], w => (w, [])
  | (_, none) :: rest, w => broadcastLoop wr room msg rest w
  | (id, some player) :: rest, w =>
    match (w.players player).Conn with
    | none => broadcastLoop wr room msg rest w
    | some conn =>
      match wr conn with
      | some err =>
        if IsCloseError err [CloseGoingAway, CloseAbnormalClosure] then
          broadcastLoop wr room msg rest (deletePlayer w room id)
        else
          broadcastLoop wr room msg rest w
      | none =>
        let r := broadcastLoop wr room msg rest w
        (r.1, ⟨player, msg⟩ :: r.2)

/-- Function `broadcastToRoom(room, msg)`: snapshot `room.Players`, then run the
loop over the snapshot. -/
def broadcastToRoom (wr : WriteOracle) (w : World) (room : Nat) (msg : Message) :
    World × List Delivery :=
  broadcastLoop wr room msg (w.roomObjs room).Players w

/-! ## `startNewRound` -/

/-- The locked section of `startNewRound`: store the word and read it back. -/
def storeNewWord (w : World) (room : Nat) : World × String :=
  let w1 := setWord w room "NewWord"
  (w1, (w1.roomObjs room).Word)

/-- The `new_round` message built by `startNewRound`. -/
def newRoundMsg (newWord : String) : Message :=
  ⟨"new_round", .stringMap [("message", .string "New round has started"),
    ("word", .string newWord)]⟩

/-- Function `startNewRound(room)`. -/
def startNewRound (wr : WriteOracle) (w : World) (room : Nat) : World × List Delivery :=
  let s := storeNewWord w room
  broadcastToRoom wr s.1 room (newRoundMsg s.2)

/-! ## `handleGuess` -/

/-- A goroutine started with `go`. -/
inductive Task where
  | startNewRound (room : Nat) : Task
  | handleMessages (player : Nat) : Task
  deriving DecidableEq

/-- What a handler leaves behind: the new state, the successful writes in
order, and the goroutines it started. -/
structure Outcome where
  world : World
  sent : List Delivery
  spawned : List Task

/-- The read-locked section of `handleGuess`: `currentWord := room.Word`. -/
def readWord (w : World) (room : Nat) : String :=
  (w.roomObjs room).Word

/-- The write-locked section of `handleGuess`: `player.Score += 100`, capture
`currentScore`, and `room.Current.Score += 50` when `room.Current != nil`. -/
def scoreGuess (w : World) (player room : Nat) : World × Int :=
  let w1 := addScore w player 100
  let currentScore := (w1.players player).Score
  match (w1.roomObjs room).Current with
  | some drawer => (addScore w1 drawer 50, currentScore)
  | none => (w1, currentScore)

/-- The `correct_guess` message built by `handleGuess`. -/
def correctGuessMsg (username currentWord : String) (currentScore : Int) : Message :=
  ⟨"correct_guess", .stringMap [("player", .string username),
    ("word", .string currentWord), ("score", .int currentScore)]⟩

/-- Function `handleGuess(player, data)`. -/
def handleGuess (wr : WriteOracle) (w : World) (player : Nat) (data : Dyn) : Outcome :=
  match data with
  | .string guess =>
    let room := (w.players player).Room
    let currentWord := readWord w room
    if guess = currentWord then
      let s := scoreGuess w player room
      let msg := correctGuessMsg (s.1.players player).Username currentWord s.2
      let b := broadcastToRoom wr s.1 room msg
      ⟨b.1, b.2, [.startNewRound room]⟩
    else
      ⟨w, [], []⟩
  | _ => ⟨w, [], []⟩

/-! ## `getOrCreateRoom` and `HandleWebSocket` -/

/-- Function `getOrCreateRoom(roomId)`: the registered room, or a freshly
allocated one (empty `Players`, word `"Echo"`) that is then registered. -/
def getOrCreateRoom (w : World) (roomId : String) : World × Nat :=
  match mapGet w.rooms roomId with
  | some room => (w, room)
  | none =>
    let room := w.nextRoom
    ({ w with
        roomObjs := Function.update w.roomObjs room ⟨roomId, [], "Echo", none⟩
        nextRoom := room + 1
        rooms := mapSet w.rooms roomId room }, room)

/-- The `welcome` message built by `HandleWebSocket`. -/
def welcomeMsg (playerId roomId : String) : Message :=
  ⟨"welcome", .strStrMap [("playerId", playerId), ("roomId", roomId)]⟩

/-- Function `HandleWebSocket`.  `upgrade` is the connection returned by
`upgrader.Upgrade` (`none` when it fails), `newId` the value of
`utils.GenerateID(8)` and `parts` the value of `strings.Split(r.URL.Path, "/")`.
The new player is allocated with `Room` already set. -/
def HandleWebSocket (wr : WriteOracle) (w : World) (upgrade : Option Nat) (newId : String)
    (parts : List String) : Outcome :=
  match upgrade with
  | none => ⟨w, [], []⟩
  | some conn =>
    if parts.length < 2 then ⟨w, [], []⟩
    else
      let roomId := parts.getLastD ""
      let g := getOrCreateRoom w roomId
      let w1 := g.1
      let room := g.2
      let player := w1.nextPlayer
      let r := w1.roomObjs room
      let w2 : World :=
        { w1 with
            players := Function.update w1.players player ⟨newId, some conn, "Scythe", 0, room⟩
            nextPlayer := player + 1
            roomObjs := Function.update w1.roomObjs room
              { r with Players := mapSet r.Players newId (some player) } }
      let sent : List Delivery :=
        match wr conn with
        | some _ => []
        | none => [⟨player, welcomeMsg newId roomId⟩]
      ⟨w2, sent, [.handleMessages player]⟩

/-! ## `handleDraw` and `broadcastToRoomExcept` -/

/-- The loop of `broadcastToRoomExcept` over the live `room.Players`.  There is
no `nil` check here: dereferencing a `nil` player or calling `WriteJSON` on a
`nil` connection panics, which is the result `none`.  A failed write is only
logged. -/
def broadcastExceptLoop (wr : WriteOracle) (w : World) (msg : Message) (excludePlayer : Nat) :
    List (String × Option Nat) → Option (List Delivery)
  | [] => some []
  | (_, player) :: rest =>
    if player ≠ some excludePlayer then
      match player with
      | none => none
      | some p =>
        match (w.players p).Conn with
        | none => none
        | some conn =>
          match wr conn with
          | some _ => broadcastExceptLoop wr w msg excludePlayer rest
          | none =>
            (broadcastExceptLoop wr w msg excludePlayer rest).map (fun ds => ⟨p, msg⟩ :: ds)
    else
      broadcastExceptLoop wr w msg excludePlayer rest

/-- Function `broadcastToRoomExcept(room, msg, excludePlayer)`; it changes no
state. -/
def broadcastToRoomExcept (wr : WriteOracle) (w : World) (room : Nat) (msg : Message)
    (excludePlayer : Nat) : Option (List Delivery) :=
  broadcastExceptLoop wr w msg excludePlayer (w.roomObjs room).Players

/-- Function `handleDraw(player, data)`; `none` is a panic inside the
broadcast. -/
def handleDraw (wr : WriteOracle) (w : World) (player : Nat) (data : Dyn) : Option Outcome :=
  let room := (w.players player).Room
  if (w.roomObjs room).Current = none ∨ some player ≠ (w.roomObjs room).Current then
    some ⟨w, [], []⟩
  else
    match data with
    | .drawData drawData =>
      (broadcastToRoomExcept wr w room ⟨"draw", .drawData drawData⟩ player).map
        (fun ds => ⟨w, ds, []⟩)
    | _ => some ⟨w, [], []⟩

/-! ## `removePlayer` and the message loop -/

/-- Function `removePlayer(player)`. -/
def removePlayer (wr : WriteOracle) (w : World) (player : Nat) : World × List Delivery :=
  let room := (w.players player).Room
  let w1 := deletePlayer w room (w.players player).Id
  let isEmpty := (w1.roomObjs room).Players.length = 0
  let w2 : World :=
    if isEmpty then { w1 with rooms := mapDelete w1.rooms (w1.roomObjs room).Id } else w1
  broadcastToRoom wr w2 room ⟨"player_left", .string (w2.players player).Username⟩

/-- The `switch msg.Type` of `handleMessages` for one decoded message. -/
def dispatch (wr : WriteOracle) (w : World) (player : Nat) (msg : Message) : Option Outcome :=
  if msg.Type_ = "draw" then handleDraw wr w player msg.Data
  else if msg.Type_ = "guess" then some (handleGuess wr w player msg.Data)
  else some ⟨w, [], []⟩

/-! ## Sequences of operations on the registry -/

/-- The operations that change the registry or a room. -/
inductive Op where
  | connect (upgrade : Option Nat) (newId : String) (parts : List String) : Op
  | removePlayer (player : Nat) : Op
  | handleGuess (player : Nat) (data : Dyn) : Op
  | startNewRound (room : Nat) : Op
  | broadcastToRoom (room : Nat) (msg : Message) : Op

/-- Run one operation to completion with the given write oracle. -/
def applyOp (w : World) (step : WriteOracle × Op) : World :=
  match step.2 with
  | .connect upgrade newId parts => (HandleWebSocket step.1 w upgrade newId parts).world
  | .removePlayer player => (removePlayer step.1 w player).1
  | .handleGuess player data => (handleGuess step.1 w player data).world
  | .startNewRound room => (startNewRound step.1 w room).1
  | .broadcastToRoom room msg => (broadcastToRoom step.1 w room msg).1

/-- Run a sequence of operations, each to completion, one after the other. -/
def run (w : World) (ops : List (WriteOracle × Op)) : World :=
  ops.foldl applyOp w

/-! ## `handleGuess` against `startNewRound`, one locked section at a time -/

/-- Where a `handleGuess(player, guess)` call stands: before its read-locked
section, between the read and the comparison (holding `currentWord`), before
its broadcast (holding `currentWord` and `currentScore`), or returned. -/
inductive GuessPc where
  | atRead : GuessPc
  | atCompare (currentWord : String) : GuessPc
  | atBroadcast (currentWord : String) (currentScore : Int) : GuessPc
  | returned : GuessPc

/-- Where a `startNewRound(room)` call stands: before its locked section,
before its broadcast (holding `newWord`), or returned. -/
inductive RoundPc where
  | atStore : RoundPc
  | atBroadcast (newWord : String) : RoundPc
  | returned : RoundPc

/-- A `handleGuess` call and a `startNewRound` call running side by side on the
shared state. -/
structure Config where
  world : World
  guessPc : GuessPc
  roundPc : RoundPc
  sent : List Delivery
  spawned : List Task

/-- The next atomic step of the `handleGuess(player, guess)` call: the
read-locked section, then the comparison with the write-locked section, then
the broadcast and the `go startNewRound(room)`. -/
def stepGuess (wr : WriteOracle) (player : Nat) (guess : String) (c : Config) : Config :=
  let room := (c.world.players player).Room
  match c.guessPc with
  | .atRead => { c with guessPc := .atCompare (readWord c.world room) }
  | .atCompare currentWord =>
    if guess = currentWord then
      let s := scoreGuess c.world player room
      { c with world := s.1, guessPc := .atBroadcast currentWord s.2 }
    else
      { c with guessPc := .returned }
  | .atBroadcast currentWord currentScore =>
    let msg := correctGuessMsg (c.world.players player).Username currentWord currentScore
    let b := broadcastToRoom wr c.world room msg
    { c with world := b.1, guessPc := .returned, sent := c.sent ++ b.2,
             spawned := c.spawned ++ [.startNewRound room] }
  | .returned => c

/-- The next atomic step of the `startNewRound(room)` call: the write-locked
section, then the broadcast. -/
def stepRound (wr : WriteOracle) (room : Nat) (c : Config) : Config :=
  match c.roundPc with
  | .atStore =>
    let s := storeNewWord c.world room
    { c with world := s.1, roundPc := .atBroadcast s.2 }
  | .atBroadcast newWord =>
    let b := broadcastToRoom wr c.world room (newRoundMsg newWord)
    { c with world := b.1, roundPc := .returned, sent := c.sent ++ b.2 }
  | .returned => c

/-- Run a schedule: `true` lets the `handleGuess` call take its next step,
`false` the `startNewRound` call on the guesser's room. -/
def runSchedule (wr : WriteOracle) (player : Nat) (guess : String) :
    List Bool → Config → Config
  | [], c => c
  | true :: rest, c => runSchedule wr player guess rest (stepGuess wr player guess c)
  | false :: rest, c =>
    runSchedule wr player guess rest (stepRound wr (c.world.players player).Room c)

/-- Both calls about to start on the state `w`. -/
def Config.init (w : World) : Config :=
  ⟨w, .atRead, .atStore, [], []⟩

/-! ## The selection loop of `GetRandomWords` -/

set_option linter.dupNamespace false in
/-- Modelled from the spec: the `internals.Word` type declaration is not part
of the sources; `csv.go` fills its fields `Word` and `Count`, the spec calls
the records `{word, weight}`. -/
structure Word where
  Word : String
  Count : Int
  deriving DecidableEq

/-- How a run of `GetRandomWords` ends: the `http.Error` reply, the reply with
the selected words (together with the keys of `seenIndices` in the order they
were set), the supplied random draws running out while the loop still wants
one, or an index out of range. -/
inductive WordsResult where
  | httpError (status : Nat) (body : String) : WordsResult
  | ok (selectedWords : List Word) (seenIndices : List Nat) : WordsResult
  | outOfDraws : WordsResult
  | indexOutOfRange : WordsResult
  deriving DecidableEq

/-- The loop `for len(selectedWords) < 3 && len(seenIndices) < len(words)`.
`draws` are the successive values of `rand.Intn(len(words))`; `seenIndices`
holds the keys of the Go map, each set once. -/
def selectLoop (words : List Word) :
    List Nat → List Word → List Nat → WordsResult
  | [], selectedWords, seenIndices =>
    if selectedWords.length < 3 ∧ seenIndices.length < words.length then .outOfDraws
    else .ok selectedWords seenIndices
  | randomIndex :: rest, selectedWords, seenIndices =>
    if selectedWords.length < 3 ∧ seenIndices.length < words.length then
      if randomIndex ∈ seenIndices then selectLoop words rest selectedWords seenIndices
      else
        match words[randomIndex]? with
        | none => .indexOutOfRange
        | some word =>
          selectLoop words rest (selectedWords ++ [word]) (seenIndices ++ [randomIndex])
    else .ok selectedWords seenIndices

/-- Function `GetRandomWords`, from the result `words` of `utils.ReadCsvFile`
up to the value stored in `response.Data`. -/
def GetRandomWords (words : List Word) (draws : List Nat) : WordsResult :=
  if words.length = 0 then .httpError 500 "No words available"
  else selectLoop words draws [] []

/-- The loop invariant of `selectLoop`: the keys of `seenIndices` are distinct
and in range, at most `min 3 (len words)` many, and `selectedWords` holds the
words at those indices, in the same order. -/
def SelectInv (words : List Word) (selectedWords : List Word) (seenIndices : List Nat) : Prop :=
  seenIndices.Nodup ∧ (∀ i ∈ seenIndices, i < words.length) ∧
  selectedWords.map some = seenIndices.map (fun i => words[i]?) ∧
  seenIndices.length ≤ 3 ∧ seenIndices.length ≤ words.length

/-! ## Vocabulary of the statements -/

/-- The snapshot entry is written to and the write succeeds. -/
def isDelivered (wr : WriteOracle) (w : World) (e : String × Option Nat) : Bool :=
  match e.2 with
  | none => false
  | some p =>
    match (w.players p).Conn with
    | none => false
    | some conn => (wr conn).isNone

/-- The snapshot entry is written to and the write fails with a close error of
code `CloseGoingAway` or `CloseAbnormalClosure`. -/
def isPruned (wr : WriteOracle) (w : World) (e : String × Option Nat) : Bool :=
  match e.2 with
  | none => false
  | some p =>
    match (w.players p).Conn with
    | none => false
    | some conn =>
      match wr conn with
      | none => false
      | some err => IsCloseError err [CloseGoingAway, CloseAbnormalClosure]

/-- The ids of the snapshot entries that are pruned. -/
def prunedIds (wr : WriteOracle) (w : World) (snapshot : List (String × Option Nat)) :
    List String :=
  (snapshot.filter (isPruned wr w)).map (fun e => e.1)

/-- The deliveries of `msg` to the snapshot entries whose write succeeds. -/
def deliveries (wr : WriteOracle) (w : World) (msg : Message)
    (snapshot : List (String × Option Nat)) : List Delivery :=
  (snapshot.filter (isDelivered wr w)).filterMap
    (fun e => e.2.map (fun p => (⟨p, msg⟩ : Delivery)))

/-- The state `w` with the entries of the given ids deleted from the
participant map of the room at address `room`. -/
def pruneRoom (w : World) (room : Nat) (ids : List String) : World :=
  let r := w.roomObjs room
  let kept := r.Players.filter (fun e => decide (e.1 ∉ ids))
  { w with roomObjs := Function.update w.roomObjs room { r with Players := kept } }

/-- The points a correct guess adds to the score of the player at address `q`:
100 for the guesser, and 50 for the room's drawer. -/
def reward (w : World) (player room q : Nat) : Int :=
  (if q = player then 100 else 0) + (if (w.roomObjs room).Current = some q then 50 else 0)

/-! ## Concrete states and oracles -/

/-- The oracle under which every write succeeds. -/
def allWritesOk : WriteOracle := fun _ => none

/-- One room `"abc"` at address 0 holding the single participant `"p1"` at
address 0, who is also the room's drawer; the word is `"Echo"`. -/
def drawerGuessWorld : World :=
  ⟨fun _ => ⟨"p1", some 0, "Scythe", 0, 0⟩,
   fun _ => ⟨"abc", [("p1", some 0)], "Echo", some 0⟩, 1, 1, [("abc", 0)]⟩

/-- One room at address 0 holding the single participant `"p1"` at address 0
with connection 0 and no drawer; the word is `"Echo"`. -/
def loneWorld : World :=
  ⟨fun _ => ⟨"p1", some 0, "Scythe", 0, 0⟩,
   fun _ => ⟨"abc", [("p1", some 0)], "Echo", none⟩, 1, 1, [("abc", 0)]⟩

/-- The oracle under which every write fails with an error that is not a close
error (a broken pipe, say). -/
def allWritesBroken : WriteOracle := fun _ => some .other

/-- One room at address 0 holding three participants `"p0"`, `"p1"`, `"p2"` at
addresses 0, 1, 2, each with the connection of the same number. -/
def trioWorld : World :=
  ⟨fun p => ⟨"p" ++ toString p, some p, "Scythe", 0, 0⟩,
   fun _ => ⟨"abc", [("p0", some 0), ("p1", some 1), ("p2", some 2)], "Echo", none⟩,
   3, 1, [("abc", 0)]⟩

/-- The oracle under which connection 1 is gone (close error `CloseGoingAway`)
and every other connection accepts the write. -/
def middleGone : WriteOracle :=
  fun conn => if conn = 1 then some (.closeError 1001) else none

/-- One room at address 0 with the participants `"p0"` (address 0, the drawer)
and `"p1"` (address 1), each with the connection of the same number. -/
def duoWorld : World :=
  ⟨fun p => ⟨"p" ++ toString p, some p, "Scythe", 0, 0⟩,
   fun _ => ⟨"abc", [("p0", some 0), ("p1", some 1)], "Echo", some 0⟩,
   2, 1, [("abc", 0)]⟩

/-- A drawing stroke as `ReadJSON` hands it over: a JSON object decoded into a
`map[string]interface{}`. -/
def wireStroke : Dyn :=
  .stringMap [("x", .float64 1), ("y", .float64 2)]

/-- The oracle under which connection 1 is gone (close error
`CloseAbnormalClosure`) and every other connection accepts the write. -/
def conn1Closed : WriteOracle :=
  fun conn => if conn = 1 then some (.closeError 1006) else none

/-- The oracle under which every write fails with the close error
`CloseAbnormalClosure`. -/
def allClosed : WriteOracle := fun _ => some (.closeError 1006)

/-- Two connections to `/ws/abc`, one after the other: the room `"abc"` at
address 0 with the participants `"p0"` and `"p1"` at addresses 0 and 1. -/
def twoJoined : World :=
  run World.empty
    [(allWritesOk, .connect (some 0) "p0" ["", "ws", "abc"]),
     (allWritesOk, .connect (some 1) "p1" ["", "ws", "abc"])]

/-- One connection to `/ws/abc`, then a correct guess by that participant whose
`correct_guess` write fails with a close error. -/
def prunedAlone : World :=
  run World.empty
    [(allWritesOk, .connect (some 0) "p0" ["", "ws", "abc"]),
     (allClosed, .handleGuess 0 (.string "Echo"))]

/-- One connection to `/ws/abc`, then a broadcast to the room whose write fails
with a close error. -/
def prunedByBroadcast : World :=
  run World.empty
    [(allWritesOk, .connect (some 0) "p0" ["", "ws", "abc"]),
     (allClosed, .broadcastToRoom 0 ⟨"ping", .null⟩)]

/-- Participants `"p0"` and `"p1"` join `"abc"` (room object 0); a correct guess
by `"p0"` prunes `"p1"`, whose write fails with a close error; `"p0"` leaves, so
room object 0 is empty and unregistered; `"p2"` joins `"abc"`, which creates
room object 1.  Player 1 still points to room object 0 and has not left yet. -/
def staleRoomWorld : World :=
  run World.empty
    [(allWritesOk, .connect (some 0) "p0" ["", "ws", "abc"]),
     (allWritesOk, .connect (some 1) "p1" ["", "ws", "abc"]),
     (conn1Closed, .handleGuess 0 (.string "Echo")),
     (allWritesOk, .removePlayer 0),
     (allWritesOk, .connect (some 2) "p2" ["", "ws", "abc"])]

/-- The oracle never answers with a close error of code `CloseGoingAway` or
`CloseAbnormalClosure`: every write succeeds or fails with another error. -/
def NoTerminalClose (wr : WriteOracle) : Prop :=
  ∀ conn err, wr conn = some err →
    IsCloseError err [CloseGoingAway, CloseAbnormalClosure] = false

/-- The registry invariant: every registered room object carries the id it is
registered under, has at least one participant, and is allocated. -/
def RegistryInv (w : World) : Prop :=
  ∀ k ref, mapGet w.rooms k = some ref →
    (w.roomObjs ref).Id = k ∧ (w.roomObjs ref).Players ≠ [] ∧ ref < w.nextRoom

/-! ## Lemmas on the broadcast loop -/

theorem pruneRoom_nil (w : World) (room : Nat) : pruneRoom w room [] = w := by
  cases w
  simp [pruneRoom]

theorem pruneRoom_deletePlayer (w : World) (room : Nat) (id : String) (ids : List String) :
    pruneRoom (deletePlayer w room id) room ids = pruneRoom w room (id :: ids) := by
  cases w
  simp only [pruneRoom, deletePlayer, mapDelete, Function.update_same, Function.update_idem,
    List.filter_filter]
  have hf : (fun a : String × Option Nat => decide (a.1 ∉ ids) && decide (a.1 ≠ id))
      = fun e => decide (e.1 ∉ id :: ids) := by
    funext e
    simp [Bool.and_comm]
  rw [hf]

theorem isPruned_deletePlayer (wr : WriteOracle) (w : World) (room : Nat) (id : String) :
    isPruned wr (deletePlayer w room id) = isPruned wr w := rfl

theorem isDelivered_deletePlayer (wr : WriteOracle) (w : World) (room : Nat) (id : String) :
    isDelivered wr (deletePlayer w room id) = isDelivered wr w := rfl

theorem broadcastLoop_eq (wr : WriteOracle) (room : Nat) (msg : Message)
    (snapshot : List (String × Option Nat)) (w : World) :
    broadcastLoop wr room msg snapshot w
      = (pruneRoom w room (prunedIds wr w snapshot), deliveries wr w msg snapshot) := by
  induction snapshot generalizing w with
  | nil => simp [broadcastLoop, prunedIds, deliveries, pruneRoom_nil]
  | cons e rest ih =>
    obtain ⟨id, player⟩ := e
    cases player with
    | none =>
      simp [broadcastLoop, ih, prunedIds, deliveries, isPruned, isDelivered]
    | some p =>
      cases hc : (w.players p).Conn with
      | none =>
        simp [broadcastLoop, ih, prunedIds, deliveries, isPruned, isDelivered, hc]
      | some conn =>
        cases hw : wr conn with
        | none =>
          simp [broadcastLoop, ih, prunedIds, deliveries, isPruned, isDelivered, hc, hw]
        | some err =>
          by_cases hclose : IsCloseError err [CloseGoingAway, CloseAbnormalClosure] = true
          · simp only [broadcastLoop, hc, hw, hclose, if_true, ih, prunedIds, deliveries,
              isPruned_deletePlayer, isDelivered_deletePlayer]
            rw [pruneRoom_deletePlayer]
            simp [isPruned, isDelivered, hc, hw, hclose]
          · simp [broadcastLoop, ih, prunedIds, deliveries, isPruned, isDelivered, hc, hw,
              hclose]

theorem broadcastToRoom_eq (wr : WriteOracle) (w : World) (room : Nat) (msg : Message) :
    broadcastToRoom wr w room msg
      = (pruneRoom w room (prunedIds wr w (w.roomObjs room).Players),
         deliveries wr w msg (w.roomObjs room).Players) :=
  broadcastLoop_eq wr room msg _ w


/-! ## `handleGuess`: scores -/

theorem pruneRoom_players (w : World) (room : Nat) (ids : List String) :
    (pruneRoom w room ids).players = w.players := rfl

theorem pruneRoom_rooms (w : World) (room : Nat) (ids : List String) :
    (pruneRoom w room ids).rooms = w.rooms := rfl

theorem scoreGuess_score (w : World) (player room q : Nat) :
    ((scoreGuess w player room).1.players q).Score
      = (w.players q).Score + reward w player room q := by
  unfold scoreGuess reward
  cases hcur : (w.roomObjs room).Current with
  | none =>
    by_cases hq : q = player
    · subst hq
      simp [addScore, hcur]
    · simp [addScore, hcur, hq]
  | some d =>
    by_cases hq : q = player <;> by_cases hd : d = q
    · subst hq; subst hd; simp [addScore, hcur]; ring
    · subst hq; simp [addScore, hcur, hd, Ne.symm hd]
    · subst hd; simp [addScore, hcur, hq]
    · simp [addScore, hcur, hq, hd, Ne.symm hd]

/-- C1 (amended): when the participant at address `player` submits a guess equal
to the current word of its room, the score of every player `q` grows by exactly
`reward`: 100 if `q` is the guesser, plus 50 if `q` is the room's drawer (also
when the drawer is the guesser, who then gains 150, and whether or not the
drawer is in the participant map); every other score is unchanged. -/
theorem handleGuess_correct_scores (wr : WriteOracle) (w : World) (player : Nat)
    (guess : String) (hguess : guess = readWord w (w.players player).Room) (q : Nat) :
    ((handleGuess wr w player (.string guess)).world.players q).Score
      = (w.players q).Score + reward w player (w.players player).Room q := by
  simp only [handleGuess, hguess, if_true, broadcastToRoom_eq, pruneRoom_players]
  exact scoreGuess_score w player _ q

/-- C1 (witness): the drawer of `drawerGuessWorld` guesses the word `"Echo"`. -/
theorem handleGuess_correct_scores_witness :
    "Echo" = readWord drawerGuessWorld (drawerGuessWorld.players 0).Room ∧
    ((handleGuess allWritesOk drawerGuessWorld 0 (.string "Echo")).world.players 0).Score
      = (drawerGuessWorld.players 0).Score
        + reward drawerGuessWorld 0 (drawerGuessWorld.players 0).Room 0 :=
  ⟨by decide, handleGuess_correct_scores allWritesOk drawerGuessWorld 0 "Echo" (by decide) 0⟩

/-- C1 (counterexample): in `drawerGuessWorld` the participant `"p1"` is the
drawer of its room and guesses the word `"Echo"`; its score goes from 0 to 150,
not to 100. -/
theorem handleGuess_drawer_guesser_counterexample :
    mapGet (drawerGuessWorld.roomObjs 0).Players "p1" = some (some 0) ∧
    (drawerGuessWorld.players 0).Room = 0 ∧
    readWord drawerGuessWorld 0 = "Echo" ∧
    (drawerGuessWorld.roomObjs 0).Current = some 0 ∧
    (drawerGuessWorld.players 0).Score = 0 ∧
    ((handleGuess allWritesOk drawerGuessWorld 0 (.string "Echo")).world.players 0).Score = 150 ∧
    ((handleGuess allWritesOk drawerGuessWorld 0 (.string "Echo")).world.players 0).Score
      ≠ (drawerGuessWorld.players 0).Score + 100 := by
  decide

/-- C2: a guess payload that is not the string equal to the current word of the
guesser's room (a different string, or no string at all) changes nothing: the
state is returned as it was, nothing is sent and no new round is started. -/
theorem handleGuess_wrong_noop (wr : WriteOracle) (w : World) (player : Nat) (data : Dyn)
    (hwrong : data ≠ .string (readWord w (w.players player).Room)) :
    (handleGuess wr w player data).world = w ∧
    (handleGuess wr w player data).sent = [] ∧
    (handleGuess wr w player data).spawned = [] := by
  cases data with
  | string guess =>
    have hne : guess ≠ readWord w (w.players player).Room := fun h => hwrong (by rw [h])
    simp [handleGuess, hne]
  | _ => simp [handleGuess]

/-- C2 (witness): the guess `"echo"` against the word `"Echo"`. -/
theorem handleGuess_wrong_noop_witness :
    Dyn.string "echo" ≠ .string (readWord drawerGuessWorld (drawerGuessWorld.players 0).Room) ∧
    (handleGuess allWritesOk drawerGuessWorld 0 (.string "echo")).world = drawerGuessWorld ∧
    (handleGuess allWritesOk drawerGuessWorld 0 (.string "echo")).sent = [] ∧
    (handleGuess allWritesOk drawerGuessWorld 0 (.string "echo")).spawned = [] :=
  ⟨by simp [readWord, drawerGuessWorld],
   handleGuess_wrong_noop allWritesOk drawerGuessWorld 0 (.string "echo")
     (by simp [readWord, drawerGuessWorld])⟩

/-! ## `broadcastToRoom` with one broken peer -/

theorem filter_isPruned_of_ok (wr : WriteOracle) (w : World) (l : List (String × Option Nat))
    (hok : ∀ e ∈ l, ∃ p conn, e.2 = some p ∧ (w.players p).Conn = some conn ∧ wr conn = none) :
    l.filter (isPruned wr w) = [] := by
  rw [List.filter_eq_nil_iff]
  intro e he
  obtain ⟨p, conn, h1, h2, h3⟩ := hok e he
  simp [isPruned, h1, h2, h3]

theorem filter_isDelivered_of_ok (wr : WriteOracle) (w : World)
    (l : List (String × Option Nat))
    (hok : ∀ e ∈ l, ∃ p conn, e.2 = some p ∧ (w.players p).Conn = some conn ∧ wr conn = none) :
    l.filter (isDelivered wr w) = l := by
  rw [List.filter_eq_self]
  intro e he
  obtain ⟨p, conn, h1, h2, h3⟩ := hok e he
  simp [isDelivered, h1, h2, h3]

theorem filter_key_ne_of_nodup (pre post : List (String × Option Nat)) (bid : String)
    (bp : Option Nat) (hkeys : ((pre ++ (bid, bp) :: post).map (fun e => e.1)).Nodup) :
    (pre ++ (bid, bp) :: post).filter (fun e => decide (e.1 ∉ [bid])) = pre ++ post := by
  have hnd : (pre.map (fun e => e.1) ++ bid :: post.map (fun e => e.1)).Nodup := by
    simpa using hkeys
  rw [List.nodup_append] at hnd
  obtain ⟨_, hpost, hdisj⟩ := hnd
  have hpre : ∀ e ∈ pre, e.1 ≠ bid := by
    intro e he heq
    exact hdisj (List.mem_map_of_mem _ he) (by simp [heq])
  have hpost2 : ∀ e ∈ post, e.1 ≠ bid := by
    intro e he heq
    have := (List.nodup_cons.mp hpost).1
    exact this (heq ▸ List.mem_map_of_mem (fun e => e.1) he)
  have h1 : pre.filter (fun e => decide (e.1 ∉ [bid])) = pre := by
    rw [List.filter_eq_self]; intro e he; simpa using hpre e he
  have h2 : post.filter (fun e => decide (e.1 ∉ [bid])) = post := by
    rw [List.filter_eq_self]; intro e he; simpa using hpost2 e he
  rw [List.filter_append, List.filter_cons, h1, h2]
  simp

theorem mapGet_filter_not_mem {V : Type} (l : List (String × V)) (ids : List String)
    (k : String) (hk : k ∈ ids) :
    mapGet (l.filter (fun e => decide (e.1 ∉ ids))) k = none := by
  induction l with
  | nil => simp [mapGet]
  | cons e rest ih =>
    by_cases he : e.1 ∈ ids
    · have hf : (e :: rest).filter (fun e => decide (e.1 ∉ ids))
          = rest.filter (fun e => decide (e.1 ∉ ids)) := by
        simp [List.filter_cons, he]
      rw [hf]
      exact ih
    · have hne : e.1 ≠ k := fun h => he (h ▸ hk)
      have hf : (e :: rest).filter (fun e => decide (e.1 ∉ ids))
          = e :: rest.filter (fun e => decide (e.1 ∉ ids)) := by
        simp [List.filter_cons, he]
      rw [hf]
      simp only [mapGet, hne, if_false]
      exact ih

theorem length_filterMap_of_ok (wr : WriteOracle) (w : World) (msg : Message)
    (l : List (String × Option Nat))
    (hok : ∀ e ∈ l, ∃ p conn, e.2 = some p ∧ (w.players p).Conn = some conn ∧ wr conn = none) :
    (l.filterMap (fun e => e.2.map (fun p => (⟨p, msg⟩ : Delivery)))).length = l.length := by
  induction l with
  | nil => simp
  | cons e rest ih =>
    obtain ⟨p, conn, h1, _, _⟩ := hok e (List.mem_cons_self _ _)
    have ih2 := ih (fun e2 he2 => hok e2 (List.mem_cons_of_mem _ he2))
    simp [List.filterMap_cons, h1, ih2]

/-- C3 (amended): in a room whose participant map has distinct keys, where the
entry `bid` (anywhere in the iteration order: after `pre`, before `post`) has a
connection on which the write fails with `err` and every other entry has a
connection that accepts the write, `broadcastToRoom` delivers `msg` exactly once
to each of the other participants; the broken participant is deleted from the
room exactly when `err` is a close error with code `CloseGoingAway` or
`CloseAbnormalClosure`, with any other error it stays; the other participants
all stay. -/
theorem broadcastToRoom_one_broken (wr : WriteOracle) (w : World) (room : Nat) (msg : Message)
    (pre post : List (String × Option Nat)) (bid : String) (bp bconn : Nat) (err : WriteErr)
    (hsnap : (w.roomObjs room).Players = pre ++ (bid, some bp) :: post)
    (hkeys : ((w.roomObjs room).Players.map (fun e => e.1)).Nodup)
    (hbconn : (w.players bp).Conn = some bconn)
    (hbroken : wr bconn = some err)
    (hothers : ∀ e ∈ pre ++ post,
      ∃ p conn, e.2 = some p ∧ (w.players p).Conn = some conn ∧ wr conn = none) :
    (broadcastToRoom wr w room msg).2
        = (pre ++ post).filterMap (fun e => e.2.map (fun p => (⟨p, msg⟩ : Delivery))) ∧
    (broadcastToRoom wr w room msg).2.length = pre.length + post.length ∧
    ((broadcastToRoom wr w room msg).1.roomObjs room).Players
        = (if IsCloseError err [CloseGoingAway, CloseAbnormalClosure] = true
            then pre ++ post else pre ++ (bid, some bp) :: post) ∧
    (IsCloseError err [CloseGoingAway, CloseAbnormalClosure] = true →
      mapGet ((broadcastToRoom wr w room msg).1.roomObjs room).Players bid = none) ∧
    (IsCloseError err [CloseGoingAway, CloseAbnormalClosure] = false →
      (broadcastToRoom wr w room msg).1 = w) := by
  have hpre : ∀ e ∈ pre,
      ∃ p conn, e.2 = some p ∧ (w.players p).Conn = some conn ∧ wr conn = none :=
    fun e he => hothers e (List.mem_append_left _ he)
  have hpost : ∀ e ∈ post,
      ∃ p conn, e.2 = some p ∧ (w.players p).Conn = some conn ∧ wr conn = none :=
    fun e he => hothers e (List.mem_append_right _ he)
  have hdel : deliveries wr w msg (pre ++ (bid, some bp) :: post)
      = (pre ++ post).filterMap (fun e => e.2.map (fun p => (⟨p, msg⟩ : Delivery))) := by
    have hb : isDelivered wr w (bid, some bp) = false := by
      simp [isDelivered, hbconn, hbroken]
    simp only [deliveries, List.filter_append, List.filter_cons, hb,
      filter_isDelivered_of_ok wr w pre hpre, filter_isDelivered_of_ok wr w post hpost]
    simp
  have hpr : prunedIds wr w (pre ++ (bid, some bp) :: post)
      = if IsCloseError err [CloseGoingAway, CloseAbnormalClosure] = true then [bid] else [] := by
    have hb : isPruned wr w (bid, some bp)
        = IsCloseError err [CloseGoingAway, CloseAbnormalClosure] := by
      simp [isPruned, hbconn, hbroken]
    simp only [prunedIds, List.filter_append, List.filter_cons, hb,
      filter_isPruned_of_ok wr w pre hpre, filter_isPruned_of_ok wr w post hpost]
    by_cases hc : IsCloseError err [CloseGoingAway, CloseAbnormalClosure] = true <;> simp [hc]
  rw [hsnap] at hkeys
  rw [broadcastToRoom_eq, hsnap, hdel, hpr]
  refine ⟨rfl, ?_, ?_, ?_, ?_⟩
  · rw [length_filterMap_of_ok wr w msg (pre ++ post) hothers, List.length_append]
  · by_cases hc : IsCloseError err [CloseGoingAway, CloseAbnormalClosure] = true
    · simp only [hc, if_true, pruneRoom, Function.update_same, hsnap]
      exact filter_key_ne_of_nodup pre post bid (some bp) hkeys
    · simp [hc, pruneRoom, hsnap]
  · intro hc
    simp only [hc, if_true, pruneRoom, Function.update_same]
    exact mapGet_filter_not_mem _ [bid] bid (List.mem_singleton_self bid)
  · intro hc
    simp [hc, pruneRoom_nil]

/-- C3 (witness): three participants, the middle one gone with a close error. -/
theorem broadcastToRoom_one_broken_witness :
    (trioWorld.roomObjs 0).Players = [("p0", some 0)] ++ ("p1", some 1) :: [("p2", some 2)] ∧
    (broadcastToRoom middleGone trioWorld 0 ⟨"ping", .null⟩).2.length = 2 ∧
    ((broadcastToRoom middleGone trioWorld 0 ⟨"ping", .null⟩).1.roomObjs 0).Players
      = [("p0", some 0), ("p2", some 2)] ∧
    mapGet ((broadcastToRoom middleGone trioWorld 0 ⟨"ping", .null⟩).1.roomObjs 0).Players
      "p1" = none :=
  have h := broadcastToRoom_one_broken middleGone trioWorld 0 ⟨"ping", .null⟩
    [("p0", some 0)] [("p2", some 2)] "p1" 1 1 (.closeError 1001) (by decide) (by decide)
    (by decide) (by decide)
    (by
      intro e he
      simp only [List.cons_append, List.nil_append, List.mem_cons, List.mem_singleton,
        List.not_mem_nil, or_false] at he
      rcases he with rfl | rfl
      · exact ⟨0, 0, rfl, rfl, rfl⟩
      · exact ⟨2, 2, rfl, rfl, rfl⟩)
  ⟨by decide, h.2.1, h.2.2.1, h.2.2.2.1 (by decide)⟩

/-- C3 (counterexample): the single participant of `loneWorld` has a connection
on which every write fails with an error that is not a close error; after
`broadcastToRoom` returns it is still in the participant map of its room. -/
theorem broadcastToRoom_broken_stays_counterexample :
    (loneWorld.roomObjs 0).Players = [("p1", some 0)] ∧
    (loneWorld.players 0).Conn = some 0 ∧
    (∀ conn, allWritesBroken conn ≠ none) ∧
    (broadcastToRoom allWritesBroken loneWorld 0 ⟨"ping", .null⟩).2.length = 0 ∧
    mapGet ((broadcastToRoom allWritesBroken loneWorld 0 ⟨"ping", .null⟩).1.roomObjs 0).Players
      "p1" = some (some 0) := by
  refine ⟨by decide, by decide, ?_, by decide, by decide⟩
  intro conn
  simp [allWritesBroken]

/-! ## `getOrCreateRoom` -/

theorem mapGet_mapSet_self {V : Type} (m : List (String × V)) (k : String) (v : V) :
    mapGet (mapSet m k v) k = some v := by
  induction m with
  | nil => simp [mapSet, mapGet]
  | cons e rest ih =>
    obtain ⟨k2, v2⟩ := e
    by_cases h : k2 = k
    · simp [mapSet, mapGet, h]
    · simp [mapSet, mapGet, h, ih]

theorem mapGet_mapSet_other {V : Type} (m : List (String × V)) (k other : String) (v : V)
    (hne : other ≠ k) : mapGet (mapSet m k v) other = mapGet m other := by
  induction m with
  | nil => simp [mapSet, mapGet, Ne.symm hne]
  | cons e rest ih =>
    obtain ⟨k2, v2⟩ := e
    by_cases h : k2 = k
    · subst h
      simp [mapSet, mapGet, Ne.symm hne]
    · by_cases h2 : k2 = other
      · subst h2
        simp [mapSet, mapGet, h]
      · simp [mapSet, mapGet, h, h2, ih]

theorem mapGet_none_iff {V : Type} (m : List (String × V)) (k : String) :
    mapGet m k = none ↔ k ∉ m.map (fun e => e.1) := by
  induction m with
  | nil => simp [mapGet]
  | cons e rest ih =>
    obtain ⟨k2, v2⟩ := e
    by_cases h : k2 = k
    · simp [mapGet, h]
    · simp [mapGet, h, ih, Ne.symm h]

theorem mapSet_keys_of_absent {V : Type} (m : List (String × V)) (k : String) (v : V)
    (habs : mapGet m k = none) :
    (mapSet m k v).map (fun e => e.1) = m.map (fun e => e.1) ++ [k] := by
  induction m with
  | nil => simp [mapSet]
  | cons e rest ih =>
    obtain ⟨k2, v2⟩ := e
    by_cases h : k2 = k
    · simp [mapGet, h] at habs
    · simp only [mapGet, h, if_false] at habs
      simp [mapSet, h, ih habs]

/-- C5: `getOrCreateRoom(roomId)` returns the room registered under `roomId` and
changes nothing when there is one; otherwise it allocates a room with id
`roomId`, no participant, word `"Echo"` and no drawer, and registers it.  In both
cases the returned room is the one registered under `roomId` afterwards, every
other registry entry and every room object that existed is unchanged, distinct
keys stay distinct, and a second call returns the same room and changes
nothing. -/
theorem getOrCreateRoom_spec (w : World) (roomId : String) :
    (∀ room, mapGet w.rooms roomId = some room → getOrCreateRoom w roomId = (w, room)) ∧
    (mapGet w.rooms roomId = none →
      (getOrCreateRoom w roomId).2 = w.nextRoom ∧
      (getOrCreateRoom w roomId).1.roomObjs (getOrCreateRoom w roomId).2
        = ⟨roomId, [], "Echo", none⟩ ∧
      (getOrCreateRoom w roomId).1.rooms.map (fun e => e.1)
        = w.rooms.map (fun e => e.1) ++ [roomId]) ∧
    mapGet (getOrCreateRoom w roomId).1.rooms roomId = some (getOrCreateRoom w roomId).2 ∧
    (∀ other, other ≠ roomId →
      mapGet (getOrCreateRoom w roomId).1.rooms other = mapGet w.rooms other) ∧
    (∀ ref, ref ≠ w.nextRoom → (getOrCreateRoom w roomId).1.roomObjs ref = w.roomObjs ref) ∧
    ((w.rooms.map (fun e => e.1)).Nodup →
      ((getOrCreateRoom w roomId).1.rooms.map (fun e => e.1)).Nodup) ∧
    getOrCreateRoom (getOrCreateRoom w roomId).1 roomId = getOrCreateRoom w roomId := by
  cases hget : mapGet w.rooms roomId with
  | some room =>
    have hg : getOrCreateRoom w roomId = (w, room) := by simp [getOrCreateRoom, hget]
    refine ⟨?_, ?_, ?_, ?_, ?_, ?_, ?_⟩
    · intro room2 h2
      rw [hg]
      cases h2
      rfl
    · intro h; cases h
    · rw [hg]; exact hget
    · intro other _; rw [hg]
    · intro ref _; rw [hg]
    · intro h; rw [hg]; exact h
    · rw [hg]; exact hg
  | none =>
    have hg : getOrCreateRoom w roomId
        = ({ w with
              roomObjs := Function.update w.roomObjs w.nextRoom ⟨roomId, [], "Echo", none⟩
              nextRoom := w.nextRoom + 1
              rooms := mapSet w.rooms roomId w.nextRoom }, w.nextRoom) := by
      simp [getOrCreateRoom, hget]
    refine ⟨?_, ?_, ?_, ?_, ?_, ?_, ?_⟩
    · intro room h; cases h
    · intro _
      rw [hg]
      exact ⟨rfl, by simp, mapSet_keys_of_absent _ _ _ hget⟩
    · rw [hg]; exact mapGet_mapSet_self _ _ _
    · intro other hne; rw [hg]; exact mapGet_mapSet_other _ _ _ _ hne
    · intro ref hne; rw [hg]; simp [Function.update_apply, hne]
    · intro hnd
      rw [hg]
      show ((mapSet w.rooms roomId w.nextRoom).map (fun e => e.1)).Nodup
      rw [mapSet_keys_of_absent _ _ _ hget]
      rw [List.nodup_append]
      refine ⟨hnd, List.nodup_singleton _, ?_⟩
      intro k hk hk2
      rw [List.mem_singleton] at hk2
      subst hk2
      exact (mapGet_none_iff _ _).mp hget hk
    · rw [hg]
      simp [getOrCreateRoom, mapGet_mapSet_self]

/-- C5 (witness): the room `"abc"` asked for in the empty registry. -/
theorem getOrCreateRoom_spec_witness :
    mapGet World.empty.rooms "abc" = none ∧
    (getOrCreateRoom World.empty "abc").2 = 0 ∧
    (getOrCreateRoom World.empty "abc").1.roomObjs 0 = ⟨"abc", [], "Echo", none⟩ ∧
    mapGet (getOrCreateRoom World.empty "abc").1.rooms "abc" = some 0 ∧
    getOrCreateRoom (getOrCreateRoom World.empty "abc").1 "abc"
      = getOrCreateRoom World.empty "abc" :=
  have h := getOrCreateRoom_spec World.empty "abc"
  ⟨by decide, (h.2.1 (by decide)).1, (h.2.1 (by decide)).2.1, h.2.2.1, h.2.2.2.2.2.2⟩

/-! ## `handleDraw` and `startNewRound` -/

/-- C6 (the code on payloads from the wire): for every payload that `ReadJSON`
can produce, `handleDraw` returns without sending anything and without changing
the state, also when the sender is the room's drawer: the assertion
`data.(internals.DrawData)` fails for every decoded JSON value.  The same holds
for a decoded message of type `"draw"` going through the `switch` of
`handleMessages`. -/
theorem handleDraw_wire_sends_nothing (wr : WriteOracle) (w : World) (player : Nat)
    (data : Dyn) (hwire : data.fromWire = true) :
    handleDraw wr w player data = some ⟨w, [], []⟩ ∧
    dispatch wr w player ⟨"draw", data⟩ = some ⟨w, [], []⟩ := by
  have h : handleDraw wr w player data = some ⟨w, [], []⟩ := by
    unfold handleDraw
    cases data <;> simp_all [Dyn.fromWire]
  exact ⟨h, by simp [dispatch, h]⟩

/-- C6 (failing input): the drawer `"p0"` of `duoWorld` sends a decoded JSON
stroke and nothing reaches `"p1"`, while a value of type `DrawData` would be
relayed to `"p1"`. -/
theorem handleDraw_wire_sends_nothing_witness :
    (duoWorld.roomObjs (duoWorld.players 0).Room).Current = some 0 ∧
    (duoWorld.roomObjs (duoWorld.players 0).Room).Players = [("p0", some 0), ("p1", some 1)] ∧
    wireStroke.fromWire = true ∧
    handleDraw allWritesOk duoWorld 0 wireStroke = some ⟨duoWorld, [], []⟩ ∧
    dispatch allWritesOk duoWorld 0 ⟨"draw", wireStroke⟩ = some ⟨duoWorld, [], []⟩ ∧
    (handleDraw allWritesOk duoWorld 0 (.drawData ⟨[1, 2]⟩)).map
      (fun o => o.sent.map (fun d => d.receiver)) = some [1] :=
  ⟨by decide, by decide, by decide,
   (handleDraw_wire_sends_nothing allWritesOk duoWorld 0 wireStroke (by decide)).1,
   (handleDraw_wire_sends_nothing allWritesOk duoWorld 0 wireStroke (by decide)).2,
   by decide⟩

/-- C7 (the code on a second round): whatever the room's word was,
`startNewRound` stores `"NewWord"`, and every `new_round` message it delivers
carries that stored word; so a round started in a room whose word was set by an
earlier `startNewRound` stores the same word again. -/
theorem startNewRound_same_word (wr : WriteOracle) (w : World) (room : Nat) :
    ((startNewRound wr w room).1.roomObjs room).Word = "NewWord" ∧
    (∀ d ∈ (startNewRound wr w room).2,
      d.msg = newRoundMsg ((startNewRound wr w room).1.roomObjs room).Word) ∧
    ((startNewRound wr (startNewRound wr w room).1 room).1.roomObjs room).Word
      = ((startNewRound wr w room).1.roomObjs room).Word := by
  have hword : ∀ w2 : World, ((startNewRound wr w2 room).1.roomObjs room).Word = "NewWord" := by
    intro w2
    simp [startNewRound, storeNewWord, broadcastToRoom_eq, pruneRoom, setWord]
  refine ⟨hword w, ?_, ?_⟩
  · intro d hd
    rw [hword w]
    simp only [startNewRound, storeNewWord, broadcastToRoom_eq, deliveries, setWord,
      Function.update_same, List.mem_filterMap] at hd
    obtain ⟨e, _, he⟩ := hd
    cases hp : e.2 with
    | none => simp [hp] at he
    | some p =>
      simp only [hp, Option.map_some', Option.some.injEq] at he
      rw [← he]
  · rw [hword, hword]

/-! ## The selection loop of `GetRandomWords` -/

theorem SelectInv.length_eq {words sel : List Word} {seen : List Nat}
    (h : SelectInv words sel seen) : sel.length = seen.length := by
  have := congrArg List.length h.2.2.1
  simpa using this

theorem SelectInv.step {words sel : List Word} {seen : List Nat} {d : Nat} {word : Word}
    (h : SelectInv words sel seen) (hcond : sel.length < 3 ∧ seen.length < words.length)
    (hd : d ∉ seen) (hw : words[d]? = some word) :
    SelectInv words (sel ++ [word]) (seen ++ [d]) := by
  obtain ⟨hnd, hrange, hmap, _, _⟩ := h
  have hlen : sel.length = seen.length := by
    have := congrArg List.length hmap
    simpa using this
  have hdlt : d < words.length := by
    rcases Nat.lt_or_ge d words.length with hlt | hge
    · exact hlt
    · rw [List.getElem?_eq_none hge] at hw
      cases hw
  refine ⟨?_, ?_, ?_, ?_, ?_⟩
  · rw [List.nodup_append]
    refine ⟨hnd, List.nodup_singleton _, ?_⟩
    intro k hk hk2
    rw [List.mem_singleton] at hk2
    exact hd (hk2 ▸ hk)
  · intro i hi
    rw [List.mem_append, List.mem_singleton] at hi
    rcases hi with hi | hi
    · exact hrange i hi
    · exact hi ▸ hdlt
  · simp [hmap, hw]
  · simp only [List.length_append, List.length_singleton]; omega
  · simp only [List.length_append, List.length_singleton]; omega

theorem selectLoop_ok_inv (words : List Word) (draws : List Nat) :
    ∀ (sel : List Word) (seen : List Nat), SelectInv words sel seen →
      ∀ sel2 seen2, selectLoop words draws sel seen = .ok sel2 seen2 →
        SelectInv words sel2 seen2 ∧ ¬ (sel2.length < 3 ∧ seen2.length < words.length) := by
  induction draws with
  | nil =>
    intro sel seen hinv sel2 seen2 hres
    by_cases hcond : sel.length < 3 ∧ seen.length < words.length
    · simp [selectLoop, hcond] at hres
    · simp only [selectLoop, hcond, if_false, WordsResult.ok.injEq] at hres
      obtain ⟨h1, h2⟩ := hres
      subst h1; subst h2
      exact ⟨hinv, hcond⟩
  | cons d rest ih =>
    intro sel seen hinv sel2 seen2 hres
    by_cases hcond : sel.length < 3 ∧ seen.length < words.length
    · by_cases hd : d ∈ seen
      · simp only [selectLoop, hcond, hd, if_true, and_self] at hres
        exact ih sel seen hinv sel2 seen2 hres
      · cases hw : words[d]? with
        | none => simp [selectLoop, hcond, hd, hw] at hres
        | some word =>
          simp only [selectLoop, hcond, hd, hw, if_true, if_false, and_self] at hres
          exact ih _ _ (hinv.step hcond hd hw) sel2 seen2 hres
    · simp only [selectLoop, hcond, if_false, WordsResult.ok.injEq] at hres
      obtain ⟨h1, h2⟩ := hres
      subst h1; subst h2
      exact ⟨hinv, hcond⟩

theorem selectLoop_no_error (words : List Word) (draws : List Nat)
    (hrange : ∀ d ∈ draws, d < words.length) :
    ∀ (sel : List Word) (seen : List Nat),
      selectLoop words draws sel seen ≠ .indexOutOfRange ∧
      ∀ status body, selectLoop words draws sel seen ≠ .httpError status body := by
  induction draws with
  | nil =>
    intro sel seen
    by_cases hcond : sel.length < 3 ∧ seen.length < words.length <;> simp [selectLoop, hcond]
  | cons d rest ih =>
    intro sel seen
    have ih2 := ih (fun x hx => hrange x (List.mem_cons_of_mem _ hx))
    by_cases hcond : sel.length < 3 ∧ seen.length < words.length
    · by_cases hd : d ∈ seen
      · simp only [selectLoop, hcond, hd, if_true, and_self]
        exact ih2 sel seen
      · have hdlt : d < words.length := hrange d (List.mem_cons_self _ _)
        have hw : words[d]? = some words[d] := List.getElem?_eq_getElem hdlt
        simp only [selectLoop, hcond, hd, hw, if_true, if_false, and_self]
        exact ih2 _ _
    · simp [selectLoop, hcond]

theorem selectLoop_finishes (words : List Word) (draws : List Nat)
    (hrange : ∀ d ∈ draws, d < words.length) :
    ∀ (sel : List Word) (seen : List Nat), sel.length = seen.length →
      min 3 words.length ≤ (draws.toFinset \ seen.toFinset).card + seen.length →
      ∃ sel2 seen2, selectLoop words draws sel seen = .ok sel2 seen2 := by
  induction draws with
  | nil =>
    intro sel seen hlen hcard
    have hcond : ¬ (sel.length < 3 ∧ seen.length < words.length) := by
      simp only [List.toFinset_nil, Finset.empty_sdiff, Finset.card_empty, zero_add] at hcard
      rw [hlen]
      omega
    exact ⟨sel, seen, by simp [selectLoop, hcond]⟩
  | cons d rest ih =>
    intro sel seen hlen hcard
    have ih2 := ih (fun x hx => hrange x (List.mem_cons_of_mem _ hx))
    by_cases hcond : sel.length < 3 ∧ seen.length < words.length
    · by_cases hd : d ∈ seen
      · simp only [selectLoop, hcond, hd, if_true, and_self]
        apply ih2 sel seen hlen
        have hsub : (d :: rest).toFinset \ seen.toFinset ⊆ rest.toFinset \ seen.toFinset := by
          intro x hx
          simp only [List.toFinset_cons, Finset.mem_sdiff, Finset.mem_insert,
            List.mem_toFinset] at hx ⊢
          rcases hx with ⟨hx1 | hx1, hx2⟩
          · exact absurd (hx1 ▸ hd) hx2
          · exact ⟨hx1, hx2⟩
        have := Finset.card_le_card hsub
        omega
      · have hdlt : d < words.length := hrange d (List.mem_cons_self _ _)
        have hw : words[d]? = some words[d] := List.getElem?_eq_getElem hdlt
        simp only [selectLoop, hcond, hd, hw, if_true, if_false, and_self]
        apply ih2
        · simp [hlen]
        · have hsub : (d :: rest).toFinset \ seen.toFinset
              ⊆ insert d (rest.toFinset \ (seen ++ [d]).toFinset) := by
            intro x hx
            simp only [List.toFinset_cons, Finset.mem_sdiff, Finset.mem_insert,
              List.mem_toFinset, List.toFinset_append, Finset.mem_union,
              List.mem_singleton, List.toFinset_nil, insert_emptyc_eq,
              Finset.mem_singleton] at hx ⊢
            by_cases hxd : x = d
            · exact Or.inl hxd
            · rcases hx with ⟨hx1 | hx1, hx2⟩
              · exact absurd hx1 hxd
              · exact Or.inr ⟨hx1, fun h => h.elim hx2 hxd⟩
          have h1 := Finset.card_le_card hsub
          have h2 := Finset.card_insert_le d (rest.toFinset \ (seen ++ [d]).toFinset)
          simp only [List.length_append, List.length_singleton]
          omega
    · exact ⟨sel, seen, by simp [selectLoop, hcond]⟩

/-- C9: with random indices drawn in range, `GetRandomWords` answers with the
error 500 and no words when the word list is empty.  Otherwise it never fails;
whenever its loop finishes, the indices it used are pairwise distinct and in
range, the words returned are exactly the words at those indices (so each is an
element of the list) and their number is `min 3 (len words)`; and the loop does
finish as soon as the draws contain `min 3 (len words)` distinct indices. -/
theorem GetRandomWords_spec (words : List Word) (draws : List Nat)
    (hrange : ∀ d ∈ draws, d < words.length) :
    (words = [] → GetRandomWords words draws = .httpError 500 "No words available") ∧
    (words ≠ [] →
      (∀ sel seen, GetRandomWords words draws = .ok sel seen →
        seen.Nodup ∧ (∀ i ∈ seen, i < words.length) ∧
        sel.map some = seen.map (fun i => words[i]?) ∧
        (∀ x ∈ sel, x ∈ words) ∧
        sel.length = min 3 words.length) ∧
      GetRandomWords words draws ≠ .indexOutOfRange ∧
      (∀ status body, GetRandomWords words draws ≠ .httpError status body) ∧
      (min 3 words.length ≤ draws.toFinset.card →
        ∃ sel seen, GetRandomWords words draws = .ok sel seen)) := by
  constructor
  · intro hnil
    simp [GetRandomWords, hnil]
  · intro hne
    have hlen : ¬ words.length = 0 := by
      intro h
      exact hne (List.length_eq_zero.mp h)
    have hg : GetRandomWords words draws = selectLoop words draws [] [] := by
      simp [GetRandomWords, hlen]
    have hinv0 : SelectInv words [] [] := by
      refine ⟨List.nodup_nil, ?_, rfl, ?_, ?_⟩ <;> simp
    rw [hg]
    refine ⟨?_, (selectLoop_no_error words draws hrange [] []).1,
      (selectLoop_no_error words draws hrange [] []).2, ?_⟩
    · intro sel seen hres
      obtain ⟨hinv, hexit⟩ := selectLoop_ok_inv words draws [] [] hinv0 sel seen hres
      have hl := hinv.length_eq
      obtain ⟨hnd, hr, hmap, h3, hn⟩ := hinv
      refine ⟨hnd, hr, hmap, ?_, ?_⟩
      · intro x hx
        have hx2 : some x ∈ sel.map some := List.mem_map_of_mem _ hx
        rw [hmap, List.mem_map] at hx2
        obtain ⟨i, _, hi⟩ := hx2
        exact List.getElem?_mem hi
      · rw [hl] at hexit ⊢
        omega
    · intro hcard
      apply selectLoop_finishes words draws hrange [] [] rfl
      simpa using hcard

/-- C9 (witness): two words and the draws 1, 1, 0; and the empty list. -/
theorem GetRandomWords_spec_witness :
    (∀ d ∈ [1, 1, 0], d < [(⟨"cat", 1⟩ : Word), ⟨"dog", 2⟩].length) ∧
    GetRandomWords [⟨"cat", 1⟩, ⟨"dog", 2⟩] [1, 1, 0] = .ok [⟨"dog", 2⟩, ⟨"cat", 1⟩] [1, 0] ∧
    ([(⟨"dog", 2⟩ : Word), ⟨"cat", 1⟩].length = min 3 [(⟨"cat", 1⟩ : Word), ⟨"dog", 2⟩].length) ∧
    GetRandomWords [] [] = .httpError 500 "No words available" :=
  have h := GetRandomWords_spec [⟨"cat", 1⟩, ⟨"dog", 2⟩] [1, 1, 0] (by decide)
  ⟨by decide, by decide,
   ((h.2 (by decide)).1 [⟨"dog", 2⟩, ⟨"cat", 1⟩] [1, 0] (by decide)).2.2.2.2,
   (GetRandomWords_spec [] [] (by simp)).1 rfl⟩

/-! ## `handleGuess` interleaved with `startNewRound` -/

theorem runSchedule_append (wr : WriteOracle) (player : Nat) (guess : String)
    (s1 s2 : List Bool) (c : Config) :
    runSchedule wr player guess (s1 ++ s2) c
      = runSchedule wr player guess s2 (runSchedule wr player guess s1 c) := by
  induction s1 generalizing c with
  | nil => rfl
  | cons b rest ih => cases b <;> simp [runSchedule, ih]

theorem pruneRoom_current (w : World) (room : Nat) (ids : List String) (r : Nat) :
    ((pruneRoom w room ids).roomObjs r).Current = (w.roomObjs r).Current := by
  by_cases h : r = room
  · subst h; simp [pruneRoom]
  · simp [pruneRoom, Function.update_apply, h]

theorem stepRound_players (wr : WriteOracle) (room : Nat) (c : Config) :
    (stepRound wr room c).world.players = c.world.players := by
  unfold stepRound
  cases c.roundPc <;> simp [storeNewWord, setWord, broadcastToRoom_eq, pruneRoom_players]

theorem stepRound_current (wr : WriteOracle) (room : Nat) (c : Config) (r : Nat) :
    ((stepRound wr room c).world.roomObjs r).Current = (c.world.roomObjs r).Current := by
  unfold stepRound
  cases c.roundPc with
  | atStore =>
    by_cases h : r = room
    · subst h; simp [storeNewWord, setWord]
    · simp [storeNewWord, setWord, Function.update_apply, h]
  | atBroadcast newWord => simp [broadcastToRoom_eq, pruneRoom_current]
  | returned => rfl

theorem stepRound_guessPc (wr : WriteOracle) (room : Nat) (c : Config) :
    (stepRound wr room c).guessPc = c.guessPc := by
  unfold stepRound
  cases c.roundPc <;> rfl

theorem runRound_keeps (wr : WriteOracle) (player : Nat) (guess : String) (n : Nat)
    (c : Config) :
    (runSchedule wr player guess (List.replicate n false) c).world.players = c.world.players ∧
    (∀ r, ((runSchedule wr player guess (List.replicate n false) c).world.roomObjs r).Current
      = (c.world.roomObjs r).Current) ∧
    (runSchedule wr player guess (List.replicate n false) c).guessPc = c.guessPc := by
  induction n generalizing c with
  | zero => exact ⟨rfl, fun _ => rfl, rfl⟩
  | succ n ih =>
    simp only [List.replicate_succ, runSchedule]
    obtain ⟨h1, h2, h3⟩ := ih (stepRound wr (c.world.players player).Room c)
    refine ⟨?_, ?_, ?_⟩
    · rw [h1, stepRound_players]
    · intro r; rw [h2, stepRound_current]
    · rw [h3, stepRound_guessPc]

theorem runSchedule_players_after_update (wr : WriteOracle) (player : Nat) (guess : String)
    (s : List Bool) :
    ∀ c : Config,
      (c.guessPc = .returned ∨ ∃ cw cs, c.guessPc = .atBroadcast cw cs) →
      (runSchedule wr player guess s c).world.players = c.world.players := by
  induction s with
  | nil => intro c _; rfl
  | cons b rest ih =>
    intro c hpc
    cases b with
    | false =>
      simp only [runSchedule]
      rw [ih, stepRound_players]
      rw [stepRound_guessPc]
      exact hpc
    | true =>
      simp only [runSchedule]
      rcases hpc with hret | ⟨cw, cs, hbc⟩
      · have hstep : stepGuess wr player guess c = c := by
          simp [stepGuess, hret]
        rw [hstep]
        exact ih c (Or.inl hret)
      · rw [ih]
        · simp [stepGuess, hbc, broadcastToRoom_eq, pruneRoom_players]
        · left
          simp [stepGuess, hbc]

theorem reward_congr (w1 w2 : World) (player room q : Nat)
    (hcur : (w1.roomObjs room).Current = (w2.roomObjs room).Current) :
    reward w1 player room q = reward w2 player room q := by
  simp [reward, hcur]

/-- The three steps of the `handleGuess` call, run with nothing in between, are
the function `handleGuess`. -/
theorem runSchedule_sequential (wr : WriteOracle) (w : World) (player : Nat) (guess : String) :
    (runSchedule wr player guess [true, true, true] (Config.init w)).world
      = (handleGuess wr w player (.string guess)).world ∧
    (runSchedule wr player guess [true, true, true] (Config.init w)).sent
      = (handleGuess wr w player (.string guess)).sent ∧
    (runSchedule wr player guess [true, true, true] (Config.init w)).spawned
      = (handleGuess wr w player (.string guess)).spawned := by
  by_cases h : guess = readWord w (w.players player).Room
  · have hroom : ((scoreGuess w player (w.players player).Room).1.players player).Room
        = (w.players player).Room := by
      unfold scoreGuess
      cases hcur : (w.roomObjs (w.players player).Room).Current with
      | none => simp [addScore, hcur]
      | some d =>
        by_cases hd : d = player
        · subst hd; simp [addScore, hcur]
        · simp [addScore, hcur, Function.update_apply, hd, Ne.symm hd]
    simp [runSchedule, stepGuess, Config.init, handleGuess, h, hroom]
  · simp [runSchedule, stepGuess, Config.init, handleGuess, h]

/-- C8 (amended): take any interleaving in which `startNewRound` makes `n1` steps
before the read-locked section of `handleGuess`, `n2` steps between that read
and the write-locked section, and anything (`rest`) afterwards.  The guess is
scored exactly when its text equals the word that `handleGuess` read in its
read-locked section: the score of every player `q` ends `reward` higher if the
guess equals the word read, and unchanged otherwise, whatever word the room
holds when the score update is applied. -/
theorem guess_scored_iff_word_read (wr : WriteOracle) (w : World) (player : Nat)
    (guess : String) (n1 n2 : Nat) (rest : List Bool) (q : Nat) :
    ((runSchedule wr player guess
        (List.replicate n1 false ++ true :: (List.replicate n2 false ++ true :: rest))
        (Config.init w)).world.players q).Score
      = (w.players q).Score +
        (if guess = readWord (runSchedule wr player guess (List.replicate n1 false)
              (Config.init w)).world (w.players player).Room
          then reward w player (w.players player).Room q else 0) := by
  obtain ⟨hp1, hc1, hpc1⟩ := runRound_keeps wr player guess n1 (Config.init w)
  generalize hc1def : runSchedule wr player guess (List.replicate n1 false) (Config.init w)
    = c1 at hp1 hc1 hpc1
  have hp1w : c1.world.players = w.players := hp1
  have hpc1r : c1.guessPc = .atRead := hpc1
  have hcur1 : ∀ r, (c1.world.roomObjs r).Current = (w.roomObjs r).Current := hc1
  rw [runSchedule_append, hc1def]
  simp only [runSchedule]
  -- the read-locked section
  have hstep1 : stepGuess wr player guess c1
      = { c1 with guessPc := .atCompare (readWord c1.world (w.players player).Room) } := by
    simp [stepGuess, hpc1r, hp1w]
  rw [hstep1, runSchedule_append]
  obtain ⟨hp2, hc2, hpc2⟩ := runRound_keeps wr player guess n2
    { c1 with guessPc := .atCompare (readWord c1.world (w.players player).Room) }
  generalize runSchedule wr player guess (List.replicate n2 false)
    { c1 with guessPc := .atCompare (readWord c1.world (w.players player).Room) }
    = c2 at hp2 hc2 hpc2
  have hp2w : c2.world.players = w.players := by rw [hp2]; exact hp1w
  have hpc2r : c2.guessPc = .atCompare (readWord c1.world (w.players player).Room) := hpc2
  have hcur2 : ∀ r, (c2.world.roomObjs r).Current = (w.roomObjs r).Current := by
    intro r; rw [hc2]; exact hcur1 r
  simp only [runSchedule]
  -- the comparison and the write-locked section
  by_cases hg : guess = readWord c1.world (w.players player).Room
  · rw [runSchedule_players_after_update]
    · simp only [stepGuess, hpc2r, hp2w, ← hg, if_true]
      rw [scoreGuess_score, hp2w, reward_congr c2.world w _ _ _ (hcur2 _)]
    · right
      simp [stepGuess, hpc2r, hp2w, ← hg]
  · rw [runSchedule_players_after_update]
    · simp [stepGuess, hpc2r, hp2w, hg]
    · left
      simp [stepGuess, hpc2r, hp2w, hg]

/-- C8 (counterexample): in `loneWorld` the participant guesses `"Echo"`;
`handleGuess` reads the word `"Echo"`, then `startNewRound` stores `"NewWord"`,
then `handleGuess` applies its score update.  At that moment the room's word is
`"NewWord"`, which the guess does not equal, and the guesser's score still goes
from 0 to 100. -/
theorem stale_guess_scored_counterexample :
    readWord (runSchedule allWritesOk 0 "Echo" [true, false] (Config.init loneWorld)).world 0
      = "NewWord" ∧
    "Echo" ≠ "NewWord" ∧
    ((runSchedule allWritesOk 0 "Echo" [true, false] (Config.init loneWorld)).world.players
      0).Score = 0 ∧
    ((runSchedule allWritesOk 0 "Echo" [true, false, true] (Config.init loneWorld)).world.players
      0).Score = 100 := by
  decide

/-! ## `removePlayer` and the registry -/

theorem mapGet_mapDelete_self {V : Type} (m : List (String × V)) (k : String) :
    mapGet (mapDelete m k) k = none := by
  have h := mapGet_filter_not_mem m [k] k (List.mem_singleton_self k)
  have hf : (fun e : String × V => decide (e.1 ∉ [k])) = fun e => decide (e.1 ≠ k) := by
    funext e
    simp
  rw [hf] at h
  exact h

theorem mapGet_mapDelete_other {V : Type} (m : List (String × V)) (k other : String)
    (hne : other ≠ k) : mapGet (mapDelete m k) other = mapGet m other := by
  induction m with
  | nil => rfl
  | cons e rest ih =>
    obtain ⟨k2, v2⟩ := e
    by_cases h : k2 = k
    · subst h
      have hf : mapDelete ((k2, v2) :: rest) k2 = mapDelete rest k2 := by
        simp [mapDelete, List.filter_cons]
      rw [hf, ih]
      simp [mapGet, Ne.symm hne]
    · have hf : mapDelete ((k2, v2) :: rest) k = (k2, v2) :: mapDelete rest k := by
        simp [mapDelete, List.filter_cons, h]
      rw [hf]
      by_cases h2 : k2 = other
      · simp [mapGet, h2]
      · simp [mapGet, h2, ih]

theorem mapGet_filter_none {V : Type} (m : List (String × V)) (f : String × V → Bool)
    (k : String) (hnone : mapGet m k = none) : mapGet (m.filter f) k = none := by
  rw [mapGet_none_iff] at hnone ⊢
  intro hk
  apply hnone
  rw [List.mem_map] at hk ⊢
  obtain ⟨e, he, hek⟩ := hk
  exact ⟨e, List.mem_of_mem_filter he, hek⟩

theorem removePlayer_eq (wr : WriteOracle) (w : World) (player : Nat) :
    (removePlayer wr w player).1
      = pruneRoom
          (if mapDelete (w.roomObjs (w.players player).Room).Players (w.players player).Id = []
            then { deletePlayer w (w.players player).Room (w.players player).Id with
                    rooms := mapDelete w.rooms (w.roomObjs (w.players player).Room).Id }
            else deletePlayer w (w.players player).Room (w.players player).Id)
          (w.players player).Room
          (prunedIds wr w
            (mapDelete (w.roomObjs (w.players player).Room).Players (w.players player).Id)) := by
  unfold removePlayer
  rw [broadcastToRoom_eq]
  by_cases hempty :
      mapDelete (w.roomObjs (w.players player).Room).Players (w.players player).Id = []
  · simp [deletePlayer, hempty, prunedIds, pruneRoom]
  · simp only [deletePlayer, Function.update_same, List.length_eq_zero, hempty, if_false]
    rfl

/-- C4 (amended): let `room` be the departing player's room, `pid` its id and
`left` the room's participant map with `pid` deleted.  After `removePlayer`,
`pid` is absent from the room; the room holds exactly the entries of `left` that
the closing `player_left` broadcast does not prune (an entry is pruned when its
write fails with a close error of code 1001 or 1006); the registry is the old
one with the entry of the room's id deleted if `left` is empty, and the old one
otherwise; the player heap and all other room objects are unchanged.  When the
player's room is the room registered under its own id, every registry entry
that this call deletes belongs to a room left without participants. -/
theorem removePlayer_spec (wr : WriteOracle) (w : World) (player : Nat)
    (hreg : mapGet w.rooms (w.roomObjs (w.players player).Room).Id
      = some (w.players player).Room) :
    mapGet ((removePlayer wr w player).1.roomObjs (w.players player).Room).Players
      (w.players player).Id = none ∧
    ((removePlayer wr w player).1.roomObjs (w.players player).Room).Players
      = (mapDelete (w.roomObjs (w.players player).Room).Players (w.players player).Id).filter
          (fun e => decide (e.1 ∉ prunedIds wr w
            (mapDelete (w.roomObjs (w.players player).Room).Players (w.players player).Id))) ∧
    (removePlayer wr w player).1.rooms
      = (if mapDelete (w.roomObjs (w.players player).Room).Players (w.players player).Id = []
          then mapDelete w.rooms (w.roomObjs (w.players player).Room).Id else w.rooms) ∧
    (∀ r, r ≠ (w.players player).Room →
      (removePlayer wr w player).1.roomObjs r = w.roomObjs r) ∧
    (removePlayer wr w player).1.players = w.players ∧
    (∀ k ref, mapGet w.rooms k = some ref →
      mapGet (removePlayer wr w player).1.rooms k = none →
      ((removePlayer wr w player).1.roomObjs ref).Players = []) := by
  have hplayers : ((removePlayer wr w player).1.roomObjs (w.players player).Room).Players
      = (mapDelete (w.roomObjs (w.players player).Room).Players (w.players player).Id).filter
          (fun e => decide (e.1 ∉ prunedIds wr w
            (mapDelete (w.roomObjs (w.players player).Room).Players
              (w.players player).Id))) := by
    rw [removePlayer_eq]
    by_cases hempty :
        mapDelete (w.roomObjs (w.players player).Room).Players (w.players player).Id = []
    · simp [hempty, pruneRoom, deletePlayer]
    · simp [hempty, pruneRoom, deletePlayer]
  have hrooms : (removePlayer wr w player).1.rooms
      = (if mapDelete (w.roomObjs (w.players player).Room).Players (w.players player).Id = []
          then mapDelete w.rooms (w.roomObjs (w.players player).Room).Id else w.rooms) := by
    rw [removePlayer_eq, pruneRoom_rooms]
    by_cases hempty :
        mapDelete (w.roomObjs (w.players player).Room).Players (w.players player).Id = []
    · simp [hempty]
    · simp [hempty, deletePlayer]
  refine ⟨?_, hplayers, hrooms, ?_, ?_, ?_⟩
  · rw [hplayers]
    exact mapGet_filter_none _ _ _ (mapGet_mapDelete_self _ _)
  · intro r hr
    rw [removePlayer_eq]
    by_cases hempty :
        mapDelete (w.roomObjs (w.players player).Room).Players (w.players player).Id = []
    · simp [hempty, pruneRoom, deletePlayer, Function.update_apply, hr]
    · simp [hempty, pruneRoom, deletePlayer, Function.update_apply, hr]
  · rw [removePlayer_eq, pruneRoom_players]
    by_cases hempty :
        mapDelete (w.roomObjs (w.players player).Room).Players (w.players player).Id = []
    · simp [hempty, deletePlayer]
    · simp [hempty, deletePlayer]
  · intro k ref hk hgone
    rw [hrooms] at hgone
    by_cases hempty :
        mapDelete (w.roomObjs (w.players player).Room).Players (w.players player).Id = []
    · by_cases hkid : k = (w.roomObjs (w.players player).Room).Id
      · subst hkid
        rw [hreg] at hk
        cases hk
        rw [hplayers, hempty]
        rfl
      · simp only [hempty, if_true] at hgone
        rw [mapGet_mapDelete_other _ _ _ hkid, hk] at hgone
        cases hgone
    · simp only [hempty, if_false] at hgone
      rw [hk] at hgone
      cases hgone

/-- C4 (witness): `"p0"` leaves the room it joined together with `"p1"`. -/
theorem removePlayer_spec_witness :
    mapGet twoJoined.rooms (twoJoined.roomObjs (twoJoined.players 0).Room).Id
      = some (twoJoined.players 0).Room ∧
    mapGet ((removePlayer allWritesOk twoJoined 0).1.roomObjs (twoJoined.players 0).Room).Players
      (twoJoined.players 0).Id = none ∧
    (removePlayer allWritesOk twoJoined 0).1.rooms = [("abc", 0)] :=
  have h := removePlayer_spec allWritesOk twoJoined 0 (by decide)
  ⟨by decide, h.1, h.2.2.1⟩

/-- C4 (counterexample): `"p0"` and `"p1"` have joined room `"abc"`; `"p0"`
leaves, and the write of `player_left` to `"p1"` fails with a close error.  When
`removePlayer` returns, `"p1"`, who did not leave, is no longer a participant of
the room. -/
theorem removePlayer_prunes_other_counterexample :
    (twoJoined.roomObjs 0).Players = [("p0", some 0), ("p1", some 1)] ∧
    (twoJoined.players 0).Room = 0 ∧
    (twoJoined.players 0).Id = "p0" ∧
    mapGet ((removePlayer conn1Closed twoJoined 0).1.roomObjs 0).Players "p1" = none := by
  decide

/-- The unguarded `delete(rooms, room.Id)` of `removePlayer`: in
`staleRoomWorld` player 1 still points to room object 0, which is empty and no
longer registered, while `"abc"` is registered to room object 1 with the
participant `"p2"`.  When player 1 leaves, the entry `"abc"` is deleted although
its room still has a participant. -/
theorem removePlayer_stale_room_deletes_live_entry :
    (staleRoomWorld.players 1).Room = 0 ∧
    (staleRoomWorld.roomObjs 0).Players = [] ∧
    mapGet staleRoomWorld.rooms "abc" = some 1 ∧
    (staleRoomWorld.roomObjs 1).Players = [("p2", some 2)] ∧
    (removePlayer allWritesOk staleRoomWorld 1).1.rooms = [] ∧
    ((removePlayer allWritesOk staleRoomWorld 1).1.roomObjs 1).Players = [("p2", some 2)] := by
  decide

/-- C10 (the code at the failing input): after the only participant of room
`"abc"` is pruned by the broadcast of its own correct guess (or by a direct
`broadcastToRoom`), the operation has completed and the room is still
registered with an empty participant map. -/
theorem pruned_room_stays_registered :
    mapGet prunedAlone.rooms "abc" = some 0 ∧
    (prunedAlone.roomObjs 0).Players = [] ∧
    mapGet prunedByBroadcast.rooms "abc" = some 0 ∧
    (prunedByBroadcast.roomObjs 0).Players = [] := by
  decide

/-! ## The registry invariant when no write ends in a terminal close error -/

theorem prunedIds_of_noTerminalClose (wr : WriteOracle) (hwr : NoTerminalClose wr) (w : World)
    (snapshot : List (String × Option Nat)) : prunedIds wr w snapshot = [] := by
  have hnone : snapshot.filter (isPruned wr w) = [] := by
    rw [List.filter_eq_nil_iff]
    intro e _
    obtain ⟨id, pl⟩ := e
    cases pl with
    | none => simp [isPruned]
    | some p =>
      cases hc : (w.players p).Conn with
      | none => simp [isPruned, hc]
      | some conn =>
        cases hw : wr conn with
        | none => simp [isPruned, hc, hw]
        | some err => simp [isPruned, hc, hw, hwr conn err hw]
  simp [prunedIds, hnone]

theorem broadcastToRoom_of_noTerminalClose (wr : WriteOracle) (hwr : NoTerminalClose wr)
    (w : World) (room : Nat) (msg : Message) : (broadcastToRoom wr w room msg).1 = w := by
  rw [broadcastToRoom_eq, prunedIds_of_noTerminalClose wr hwr, pruneRoom_nil]

theorem mapSet_ne_nil {V : Type} (m : List (String × V)) (k : String) (v : V) :
    mapSet m k v ≠ [] := by
  cases m with
  | nil => simp [mapSet]
  | cons e rest =>
    obtain ⟨k2, v2⟩ := e
    by_cases h : k2 = k <;> simp [mapSet, h]

theorem registryInv_handleWebSocket (wr : WriteOracle) (w : World) (upgrade : Option Nat)
    (newId : String) (parts : List String) (hinv : RegistryInv w) :
    RegistryInv (HandleWebSocket wr w upgrade newId parts).world := by
  unfold HandleWebSocket
  cases upgrade with
  | none => exact hinv
  | some conn =>
    by_cases hparts : parts.length < 2
    · simpa [hparts] using hinv
    · simp only [hparts, if_false]
      generalize parts.getLastD "" = roomId
      cases hget : mapGet w.rooms roomId with
      | some room =>
        have hg : getOrCreateRoom w roomId = (w, room) := by
          unfold getOrCreateRoom
          rw [hget]
        rw [hg]
        intro k ref hk
        obtain ⟨h1, h2, h3⟩ := hinv k ref hk
        by_cases href : ref = room
        · subst href
          exact ⟨by simpa using h1, by simpa using mapSet_ne_nil _ _ _, h3⟩
        · exact ⟨by simpa [Function.update_apply, href] using h1,
            by simpa [Function.update_apply, href] using h2, h3⟩
      | none =>
        have hg : getOrCreateRoom w roomId
            = ({ w with
                  roomObjs := Function.update w.roomObjs w.nextRoom
                    ⟨roomId, [], "Echo", none⟩
                  nextRoom := w.nextRoom + 1
                  rooms := mapSet w.rooms roomId w.nextRoom }, w.nextRoom) := by
          unfold getOrCreateRoom
          rw [hget]
        rw [hg]
        intro k ref hk
        by_cases hkid : k = roomId
        · subst hkid
          have hk2 : mapGet (mapSet w.rooms k w.nextRoom) k = some ref := hk
          rw [mapGet_mapSet_self] at hk2
          cases hk2
          exact ⟨by simp, by simpa using mapSet_ne_nil _ _ _, Nat.lt_succ_self _⟩
        · have hk2 : mapGet (mapSet w.rooms roomId w.nextRoom) k = some ref := hk
          rw [mapGet_mapSet_other _ _ _ _ hkid] at hk2
          obtain ⟨h1, h2, h3⟩ := hinv k ref hk2
          have href : ref ≠ w.nextRoom := Nat.ne_of_lt h3
          exact ⟨by simpa [Function.update_apply, href] using h1,
            by simpa [Function.update_apply, href] using h2, Nat.lt_succ_of_lt h3⟩

theorem registryInv_removePlayer (wr : WriteOracle) (hwr : NoTerminalClose wr) (w : World)
    (player : Nat) (hinv : RegistryInv w) : RegistryInv (removePlayer wr w player).1 := by
  rw [removePlayer_eq, prunedIds_of_noTerminalClose wr hwr, pruneRoom_nil]
  intro k ref hk
  by_cases hempty :
      mapDelete (w.roomObjs (w.players player).Room).Players (w.players player).Id = []
  · simp only [hempty, if_true] at hk ⊢
    have hkne : k ≠ (w.roomObjs (w.players player).Room).Id := by
      intro hkid
      have hk2 : mapGet (mapDelete w.rooms (w.roomObjs (w.players player).Room).Id) k
          = some ref := hk
      rw [hkid, mapGet_mapDelete_self] at hk2
      cases hk2
    have hk2 : mapGet (mapDelete w.rooms (w.roomObjs (w.players player).Room).Id) k
        = some ref := hk
    rw [mapGet_mapDelete_other _ _ _ hkne] at hk2
    obtain ⟨h1, h2, h3⟩ := hinv k ref hk2
    have href : ref ≠ (w.players player).Room := by
      intro h
      subst h
      exact hkne h1.symm
    exact ⟨by simpa [deletePlayer, Function.update_apply, href] using h1,
      by simpa [deletePlayer, Function.update_apply, href] using h2, h3⟩
  · simp only [hempty, if_false] at hk ⊢
    obtain ⟨h1, h2, h3⟩ := hinv k ref hk
    by_cases href : ref = (w.players player).Room
    · subst href
      exact ⟨by simpa [deletePlayer] using h1, by simpa [deletePlayer] using hempty, h3⟩
    · exact ⟨by simpa [deletePlayer, Function.update_apply, href] using h1,
        by simpa [deletePlayer, Function.update_apply, href] using h2, h3⟩

theorem scoreGuess_roomObjs (w : World) (player room : Nat) :
    (scoreGuess w player room).1.roomObjs = w.roomObjs ∧
    (scoreGuess w player room).1.rooms = w.rooms ∧
    (scoreGuess w player room).1.nextRoom = w.nextRoom := by
  have hcur : ((addScore w player 100).roomObjs room).Current = (w.roomObjs room).Current := rfl
  unfold scoreGuess
  simp only [hcur]
  cases (w.roomObjs room).Current <;> exact ⟨rfl, rfl, rfl⟩

theorem registryInv_handleGuess (wr : WriteOracle) (hwr : NoTerminalClose wr) (w : World)
    (player : Nat) (data : Dyn) (hinv : RegistryInv w) :
    RegistryInv (handleGuess wr w player data).world := by
  cases data with
  | string guess =>
    by_cases hg : guess = readWord w (w.players player).Room
    · simp only [handleGuess, hg, if_true, broadcastToRoom_of_noTerminalClose wr hwr]
      obtain ⟨h1, h2, h3⟩ := scoreGuess_roomObjs w player (w.players player).Room
      intro k ref hk
      rw [h2] at hk
      rw [h1, h3]
      exact hinv k ref hk
    · simpa [handleGuess, hg] using hinv
  | _ => simpa [handleGuess] using hinv

theorem registryInv_startNewRound (wr : WriteOracle) (hwr : NoTerminalClose wr) (w : World)
    (room : Nat) (hinv : RegistryInv w) : RegistryInv (startNewRound wr w room).1 := by
  simp only [startNewRound, broadcastToRoom_of_noTerminalClose wr hwr, storeNewWord]
  intro k ref hk
  obtain ⟨h1, h2, h3⟩ := hinv k ref hk
  by_cases href : ref = room
  · subst href
    exact ⟨by simpa [setWord] using h1, by simpa [setWord] using h2, h3⟩
  · exact ⟨by simpa [setWord, Function.update_apply, href] using h1,
      by simpa [setWord, Function.update_apply, href] using h2, h3⟩

theorem registryInv_applyOp (w : World) (step : WriteOracle × Op)
    (hwr : NoTerminalClose step.1) (hinv : RegistryInv w) : RegistryInv (applyOp w step) := by
  obtain ⟨wr, op⟩ := step
  cases op with
  | connect upgrade newId parts => exact registryInv_handleWebSocket wr w upgrade newId parts hinv
  | removePlayer player => exact registryInv_removePlayer wr hwr w player hinv
  | handleGuess player data => exact registryInv_handleGuess wr hwr w player data hinv
  | startNewRound room => exact registryInv_startNewRound wr hwr w room hinv
  | broadcastToRoom room msg =>
    show RegistryInv (broadcastToRoom wr w room msg).1
    rw [broadcastToRoom_of_noTerminalClose wr hwr]
    exact hinv

/-- The garbage-collection invariant along every run in which no write ends in
a terminal close error: starting from the empty registry, after any sequence of
connects, departures, guesses, round starts and broadcasts, every registered
room carries its id and has at least one participant.  The invariant can only
be lost through the prune branch of `broadcastToRoom`. -/
theorem registry_inv_without_terminal_close (ops : List (WriteOracle × Op))
    (hwr : ∀ step ∈ ops, NoTerminalClose step.1) :
    ∀ k ref, mapGet (run World.empty ops).rooms k = some ref →
      ((run World.empty ops).roomObjs ref).Id = k ∧
      ((run World.empty ops).roomObjs ref).Players ≠ [] := by
  have hgen : ∀ (ops : List (WriteOracle × Op)) (w : World),
      (∀ step ∈ ops, NoTerminalClose step.1) → RegistryInv w → RegistryInv (run w ops) := by
    intro ops
    induction ops with
    | nil => intro w _ hinv; exact hinv
    | cons step rest ih =>
      intro w hall hinv
      show RegistryInv (run (applyOp w step) rest)
      exact ih _ (fun s hs => hall s (List.mem_cons_of_mem _ hs))
        (registryInv_applyOp w step (hall step (List.mem_cons_self _ _)) hinv)
  have h0 : RegistryInv World.empty := by
    intro k ref hk
    simp [World.empty, mapGet] at hk
  intro k ref hk
  obtain ⟨h1, h2, _⟩ := hgen ops World.empty hwr h0 k ref hk
  exact ⟨h1, h2⟩

/-- A run whose writes all fail with an error that is not a close error. -/
theorem registry_inv_without_terminal_close_witness :
    (∀ step ∈ [((allWritesBroken, .connect (some 0) "p0" ["", "ws", "abc"]) : WriteOracle × Op),
        (allWritesBroken, .handleGuess 0 (.string "Echo"))], NoTerminalClose step.1) ∧
    ((run World.empty [(allWritesBroken, .connect (some 0) "p0" ["", "ws", "abc"]),
        (allWritesBroken, .handleGuess 0 (.string "Echo"))]).roomObjs 0).Players ≠ [] :=
  have hall : ∀ step ∈ [((allWritesBroken, .connect (some 0) "p0" ["", "ws", "abc"]) :
      WriteOracle × Op), (allWritesBroken, .handleGuess 0 (.string "Echo"))],
      NoTerminalClose step.1 := by
    intro step hs conn err herr
    simp only [List.mem_cons, List.mem_singleton, List.not_mem_nil, or_false] at hs
    rcases hs with rfl | rfl <;>
    · simp only [allWritesBroken, Option.some.injEq] at herr
      subst herr
      rfl
  ⟨hall, (registry_inv_without_terminal_close _ hall "abc" 0 (by decide)).2⟩

end Skribbler
